import Mathlib

/-!
Shallow embedding of the place-detection and visit-tracking engine of the
location-history server: the spatio-temporal clustering of GPS samples
(PlacesAnalyzer), the database operations it drives (recordPlaceVisit,
upsertPlace, findPlaceNear, getUnprocessedLocations, updateLocationPlace,
getTravelStats, labelPlace, getAllPlaces), and the Google enrichment tool
handler.

Modelling conventions:
* JavaScript numbers (latitude, longitude, speed, distances) are embedded
  as rationals; timestamps are integers holding milliseconds since the
  epoch, the value of Date.getTime in the source.
* The haversineDistance method of the source uses floating-point
  transcendental functions (sin, cos, atan2, sqrt).  Every claim checked
  here is structural in the distance function, so the embedding takes the
  distance function as an explicit parameter: dist stands for the
  in-process PlacesAnalyzer.haversineDistance, pdist for the PostGIS
  ST_Distance of the store.  Concrete evaluations instantiate them with a
  computable stand-in.
* SQL tables are embedded as lists of rows; ON CONFLICT clauses follow the
  PostgreSQL semantics of the unique constraints declared in the schema,
  where NULL values never collide.  Each pool.query call is one
  auto-committed statement; sequencing of statements is function
  composition.  Fields of rows that no claim mentions (accuracy, altitude,
  course, device metadata, created_at, updated_at, google_place_types) are
  omitted.
* JavaScript Array.prototype.sort is stable, embedded as insertion sort on
  the capture timestamp.
-/

/-- One GPS sample, one row of the location_points table.  The place_id
column is NULL until the point is consumed by the engine. -/
structure LocationPoint where
  id : Nat
  user_id : String
  latitude : ℚ
  longitude : ℚ
  speed : Option ℚ
  timestamp : ℤ
  place_id : Option Nat
  deriving DecidableEq

/-- One row of the places table. -/
structure Place where
  id : Nat
  user_id : String
  name : Option String
  category : Option String
  center_lat : ℚ
  center_lng : ℚ
  radius : ℚ
  address : Option String
  google_place_id : Option String
  google_place_name : Option String
  visit_count : ℤ
  deriving DecidableEq

/-- One row of the place_visits table. -/
structure PlaceVisit where
  id : Nat
  user_id : String
  place_id : Nat
  arrival_time : ℤ
  departure_time : Option ℤ
  duration_minutes : Option ℤ
  deriving DecidableEq

/-- The LocationCluster record produced by PlacesAnalyzer.createCluster. -/
structure LocationCluster where
  center_lat : ℚ
  center_lng : ℚ
  points : List LocationPoint
  start_time : ℤ
  end_time : ℤ
  duration_minutes : ℤ
  deriving DecidableEq

/-- The TravelStats record returned by Database.getTravelStats; the nested
date_range object is flattened into two fields. -/
structure TravelStats where
  total_distance_meters : ℚ
  total_duration_minutes : ℚ
  moving_time_minutes : ℚ
  stationary_time_minutes : ℚ
  average_speed_mps : ℚ
  max_speed_mps : ℚ
  range_start : ℤ
  range_end : ℤ
  deriving DecidableEq

/-- The database state: the three tables plus the next SERIAL values. -/
structure DB where
  location_points : List LocationPoint
  places : List Place
  place_visits : List PlaceVisit
  nextPlaceId : Nat
  nextVisitId : Nat
  deriving DecidableEq

/-- Comparison used by the sort in clusterLocations and by the ORDER BY
timestamp clauses: sort points by capture timestamp. -/
def timeLE (a b : LocationPoint) : Prop := a.timestamp ≤ b.timestamp

instance : DecidableRel timeLE := fun a b => Int.decLe a.timestamp b.timestamp

instance : IsTotal LocationPoint timeLE := ⟨fun a b => Int.le_total a.timestamp b.timestamp⟩

instance : IsTrans LocationPoint timeLE := ⟨fun _ _ _ h1 h2 => le_trans h1 h2⟩

/-- Stable sort by timestamp: the model of the stable JavaScript
Array.prototype.sort with comparator a.timestamp - b.timestamp, and of the
SQL ORDER BY timestamp ASC applied to a table in storage order. -/
def sortByTime (l : List LocationPoint) : List LocationPoint :=
  List.insertionSort timeLE l

/-- JavaScript Math.round: round half away from zero upward, which for
every real argument agrees with the floor of the argument plus one half. -/
def jsRound (q : ℚ) : ℤ := ⌊q + 1 / 2⌋

/-- The linking test of PlacesAnalyzer.clusterLocations between a point and
the previous point of the sorted sequence: distance at most the cluster
radius and time gap at most 30 minutes. -/
def linkB (dist : ℚ → ℚ → ℚ → ℚ → ℚ) (radius : ℚ) (prev curr : LocationPoint) : Bool :=
  decide (dist prev.latitude prev.longitude curr.latitude curr.longitude ≤ radius) &&
  decide (((curr.timestamp - prev.timestamp : ℤ) : ℚ) / 1000 / 60 ≤ 30)

/-- PlacesAnalyzer.createCluster: centroid by summing coordinates and
dividing by the member count, start and end by folding min and max over
the member timestamps, duration by Math.round of the millisecond span
divided by 1000 and by 60.  The empty case never arises in the source and
returns a junk record carrying the empty member list. -/
def createCluster (points : List LocationPoint) : LocationCluster :=
  match points with
  | [] =>
    { center_lat := 0, center_lng := 0, points := [],
      start_time := 0, end_time := 0, duration_minutes := 0 }
  | p :: ps =>
    let avgLat := ((p :: ps).foldl (fun sum q => sum + q.latitude) 0) / ((p :: ps).length : ℚ)
    let avgLng := ((p :: ps).foldl (fun sum q => sum + q.longitude) 0) / ((p :: ps).length : ℚ)
    let ts := (p :: ps).map (fun q => q.timestamp)
    let start := ts.foldl min p.timestamp
    let stop := ts.foldl max p.timestamp
    { center_lat := avgLat, center_lng := avgLng, points := p :: ps,
      start_time := start, end_time := stop,
      duration_minutes := jsRound (((stop - start : ℤ) : ℚ) / 1000 / 60) }

/-- The loop body of PlacesAnalyzer.clusterLocations: cur is the current
cluster under construction, prev the previously visited point, and the
third argument the remaining sorted points.  A point linked to the
previous point is appended to the current cluster, otherwise the current
cluster is closed and a new one is started. -/
def clusterGo (link : LocationPoint → LocationPoint → Bool)
    (cur : List LocationPoint) (prev : LocationPoint) :
    List LocationPoint → List (List LocationPoint)
  | [] => [cur]
  | c :: rest =>
    if link prev c then clusterGo link (cur ++ [c]) c rest
    else cur :: clusterGo link [c] c rest

/-- The run decomposition computed by the loop of clusterLocations on the
already sorted sequence. -/
def clusterRuns (link : LocationPoint → LocationPoint → Bool) :
    List LocationPoint → List (List LocationPoint)
  | [] => []
  | p :: ps => clusterGo link [p] p ps

/-- PlacesAnalyzer.clusterLocations: sort the input by timestamp, make one
linear pass linking each point to its predecessor, and summarise each run
with createCluster. -/
def clusterLocations (dist : ℚ → ℚ → ℚ → ℚ → ℚ) (radius : ℚ)
    (locations : List LocationPoint) : List LocationCluster :=
  if locations.isEmpty then []
  else (clusterRuns (linkB dist radius) (sortByTime locations)).map createCluster

/-- Computable stand-in distance for concrete evaluations: zero between
equal coordinates, one million meters otherwise. -/
def dist0 (lat1 lng1 lat2 lng2 : ℚ) : ℚ :=
  if lat1 = lat2 ∧ lng1 = lng2 then 0 else 1000000

/-- Database.getUnprocessedLocations: points of the user whose place_id is
NULL, ordered by timestamp ascending, limited. -/
def getUnprocessedLocations (userId : String) (limit : Nat) (db : DB) :
    List LocationPoint :=
  (sortByTime (db.location_points.filter
    (fun p => p.user_id == userId && p.place_id.isNone))).take limit

/-- Database.updateLocationPlace: set the place_id of one point row. -/
def updateLocationPlace (locationId : Nat) (placeId : Nat) (db : DB) : DB :=
  let f := fun (p : LocationPoint) =>
    if p.id == locationId then { p with place_id := some placeId } else p
  { db with location_points := db.location_points.map f }

/-- Database.findPlaceNear: places of the user within maxDistanceMeters of
the query coordinates, ordered by distance, limit one.  Ties keep the
first row encountered. -/
def findPlaceNear (pdist : ℚ → ℚ → ℚ → ℚ → ℚ) (userId : String)
    (lat lng maxDistanceMeters : ℚ) (db : DB) : Option Place :=
  (db.places.filter (fun p => p.user_id == userId &&
      decide (pdist p.center_lat p.center_lng lat lng ≤ maxDistanceMeters))).foldl
    (fun acc p =>
      match acc with
      | none => some p
      | some q =>
        if pdist p.center_lat p.center_lng lat lng <
            pdist q.center_lat q.center_lng lat lng then some p else acc)
    none

/-- Database.getAllPlaces: the place rows of the user.  The ORDER BY
visit_count DESC, name clause of the source only affects presentation
order and is irrelevant to the id lookups performed by the tool handlers,
so rows are returned in storage order. -/
def getAllPlaces (userId : String) (db : DB) : List Place :=
  db.places.filter (fun p => p.user_id == userId)

/-- Database.labelPlace: manual naming of a place, setting name and
category on the row matching the id and the user. -/
def labelPlace (userId : String) (placeId : Nat) (name : String)
    (category : Option String) (db : DB) : DB :=
  let f := fun (p : Place) =>
    if p.id == placeId && p.user_id == userId then
      { p with name := some name, category := category } else p
  { db with places := db.places.map f }

/-- The argument record of Database.upsertPlace: exactly the columns named
by the INSERT of the source. -/
structure PlaceInput where
  user_id : String
  name : Option String
  category : Option String
  center_lat : ℚ
  center_lng : ℚ
  radius : ℚ
  address : Option String
  google_place_id : Option String
  google_place_name : Option String
  deriving DecidableEq

/-- The arbiter row of the ON CONFLICT (user_id, google_place_id) clause of
Database.upsertPlace: a conflict arises only when the inserted
google_place_id is not NULL and an existing row of the same user carries
the same google_place_id, because NULL values never collide under the
UNIQUE(user_id, google_place_id) constraint of the schema. -/
def upsertConflict (inp : PlaceInput) (db : DB) : Option Place :=
  if inp.google_place_id.isSome then
    db.places.find? (fun p => p.user_id == inp.user_id &&
      p.google_place_id == inp.google_place_id)
  else none

/-- Database.upsertPlace: insert a place row, or on conflict update the
existing row with name, category, address and google_place_name merged by
COALESCE(EXCLUDED.column, places.column); the updated or inserted row is
returned together with the new state. -/
def upsertPlace (inp : PlaceInput) (db : DB) : Place × DB :=
  match upsertConflict inp db with
  | some row =>
    let merged : Place :=
      { row with
        name := inp.name.or row.name,
        category := inp.category.or row.category,
        address := inp.address.or row.address,
        google_place_name := inp.google_place_name.or row.google_place_name }
    let f := fun (p : Place) => if p.id == row.id then merged else p
    (merged, { db with places := db.places.map f })
  | none =>
    let newRow : Place :=
      { id := db.nextPlaceId, user_id := inp.user_id, name := inp.name,
        category := inp.category, center_lat := inp.center_lat,
        center_lng := inp.center_lng, radius := inp.radius,
        address := inp.address, google_place_id := inp.google_place_id,
        google_place_name := inp.google_place_name, visit_count := 0 }
    (newRow,
      { db with
          places := db.places ++ [newRow],
          nextPlaceId := db.nextPlaceId + 1 })

/-- The argument record of Database.recordPlaceVisit. -/
structure VisitInput where
  user_id : String
  place_id : Nat
  arrival_time : ℤ
  departure_time : Option ℤ
  duration_minutes : Option ℤ
  deriving DecidableEq

/-- The arbiter of the ON CONFLICT (user_id, place_id, arrival_time)
clause of Database.recordPlaceVisit. -/
def visitKeyMatch (v : VisitInput) (w : PlaceVisit) : Bool :=
  w.user_id == v.user_id && w.place_id == v.place_id &&
  w.arrival_time == v.arrival_time

/-- The first statement of Database.recordPlaceVisit: INSERT INTO
place_visits with ON CONFLICT (user_id, place_id, arrival_time) DO UPDATE
SET departure_time, duration_minutes. -/
def visitUpsert (v : VisitInput) (db : DB) : DB :=
  let upd := fun (w : PlaceVisit) =>
    if visitKeyMatch v w then
      { w with
          departure_time := v.departure_time,
          duration_minutes := v.duration_minutes }
    else w
  if db.place_visits.any (visitKeyMatch v) then
    { db with place_visits := db.place_visits.map upd }
  else
    { db with
      place_visits := db.place_visits ++
        [{ id := db.nextVisitId, user_id := v.user_id, place_id := v.place_id,
           arrival_time := v.arrival_time, departure_time := v.departure_time,
           duration_minutes := v.duration_minutes }],
      nextVisitId := db.nextVisitId + 1 }

/-- The second statement of Database.recordPlaceVisit: UPDATE places SET
visit_count = visit_count + 1 WHERE id = place_id.  It runs on every call,
whether the first statement inserted or conflict-updated. -/
def bumpVisitCount (placeId : Nat) (db : DB) : DB :=
  let f := fun (p : Place) =>
    if p.id == placeId then { p with visit_count := p.visit_count + 1 } else p
  { db with places := db.places.map f }

/-- Database.recordPlaceVisit: the visit upsert statement followed by the
unconditional counter increment statement.  The source issues them as two
separate auto-committed pool.query calls with no enclosing transaction. -/
def recordPlaceVisit (v : VisitInput) (db : DB) : DB :=
  bumpVisitCount v.place_id (visitUpsert v db)

/-- The body of the loop over clusters in
PlacesAnalyzer.processUnprocessedLocations.  A cluster meeting the minimum
stay duration is matched against an existing place within the cluster
radius or a new place is created, its member points get their place_id
set, and the visit is recorded.  A cluster below the threshold leaves the
state untouched: the source only increments a counter in that branch and,
despite its comment about setting place_id to -1, issues no write. -/
def processCluster (pdist : ℚ → ℚ → ℚ → ℚ → ℚ)
    (minStayMinutes clusterRadiusMeters : ℚ) (userId : String)
    (db : DB) (cluster : LocationCluster) : DB :=
  if (cluster.duration_minutes : ℚ) ≥ minStayMinutes then
    let found := findPlaceNear pdist userId cluster.center_lat cluster.center_lng
      clusterRadiusMeters db
    let pair :=
      match found with
      | some p => (p, db)
      | none => upsertPlace
          { user_id := userId, name := none, category := none,
            center_lat := cluster.center_lat, center_lng := cluster.center_lng,
            radius := clusterRadiusMeters, address := none,
            google_place_id := none, google_place_name := none } db
    let db2 := cluster.points.foldl
      (fun d pt => if pt.id ≠ 0 then updateLocationPlace pt.id pair.1.id d else d)
      pair.2
    recordPlaceVisit
      { user_id := userId, place_id := pair.1.id,
        arrival_time := cluster.start_time,
        departure_time := some cluster.end_time,
        duration_minutes := some cluster.duration_minutes } db2
  else db

/-- PlacesAnalyzer.processUnprocessedLocations: fetch up to 1000
unprocessed points of the user, return unchanged when there are none,
otherwise cluster them and process each cluster in order. -/
def processUnprocessedLocations (dist pdist : ℚ → ℚ → ℚ → ℚ → ℚ)
    (minStayMinutes clusterRadiusMeters : ℚ) (userId : String) (db : DB) : DB :=
  let locations := getUnprocessedLocations userId 1000 db
  if locations.isEmpty then db
  else (clusterLocations dist clusterRadiusMeters locations).foldl
    (processCluster pdist minStayMinutes clusterRadiusMeters userId) db

/-- The row set of the ordered_points CTE of Database.getTravelStats: the
points of the user inside the window, ordered by timestamp. -/
def windowPoints (userId : String) (startT endT : ℤ) (db : DB) :
    List LocationPoint :=
  sortByTime (db.location_points.filter
    (fun p => p.user_id == userId && decide (startT ≤ p.timestamp) &&
      decide (p.timestamp ≤ endT)))

/-- The MAX aggregate of SQL: none over an empty or all-NULL column,
otherwise the greatest non-NULL value. -/
def sqlMax (l : List ℚ) : Option ℚ :=
  match l with
  | [] => none
  | x :: xs => some (xs.foldl max x)

/-- Database.getTravelStats: aggregates over the rows of the CTE whose
LAG columns are not NULL, which are all window points except the earliest
one, each paired with its predecessor.  Total distance sums the pairwise
distances, max speed and moving average range over the speed column of
those rows only; SQL NULL aggregates land on 0 through parseFloat of the
COALESCE or the JavaScript default. -/
def getTravelStats (pdist : ℚ → ℚ → ℚ → ℚ → ℚ) (userId : String)
    (startT endT : ℤ) (db : DB) : TravelStats :=
  let pts := windowPoints userId startT endT db
  let rows := pts.zip pts.tail
  let total := (rows.map (fun pr =>
    pdist pr.2.latitude pr.2.longitude pr.1.latitude pr.1.longitude)).sum
  let speeds := pts.tail.filterMap (fun q => q.speed)
  let moving := pts.tail.filterMap (fun q => q.speed.bind
    (fun s => if (1 : ℚ) / 2 < s then some s else none))
  { total_distance_meters := total,
    total_duration_minutes := ((endT - startT : ℤ) : ℚ) / 1000 / 60,
    moving_time_minutes := 0,
    stationary_time_minutes := 0,
    average_speed_mps :=
      (if moving.isEmpty then none else some (moving.sum / (moving.length : ℚ))).getD 0,
    max_speed_mps := (sqlMax speeds).getD 0,
    range_start := startT,
    range_end := endT }

/-- The success path of the enrich_place_with_google tool handler: look the
place up by id among the places of the user, then upsert the spread of the
place record with the Google suggestions.  The reverse geocode result
carries google_place_id, google_place_name and address but no name field,
so the name column passed to the upsert is the existing label of the
place; the category is the inferred category when present, else the
existing one. -/
def enrichPlace (userId : String) (placeId : Nat) (gpid gname gaddr : String)
    (gcat : Option String) (db : DB) : DB :=
  match (getAllPlaces userId db).find? (fun p => p.id == placeId) with
  | none => db
  | some place =>
    (upsertPlace
      { user_id := place.user_id, name := place.name,
        category := gcat.or place.category,
        center_lat := place.center_lat, center_lng := place.center_lng,
        radius := place.radius, address := some gaddr,
        google_place_id := some gpid, google_place_name := some gname } db).2

/-- Offset of cluster number n inside the concatenation of the member
lists of a cluster decomposition. -/
def clusterOffset (cs : List (List LocationPoint)) (n : Nat) : Nat :=
  ((cs.take n).map List.length).sum

/-- Positions i and j of the concatenated member sequence fall inside the
member range of one common cluster of the decomposition. -/
def inSameClusterB (cs : List (List LocationPoint)) (i j : Nat) : Bool :=
  (List.range cs.length).any fun n =>
    decide (clusterOffset cs n ≤ i) &&
    decide (i < clusterOffset cs n + (cs.getD n []).length) &&
    decide (clusterOffset cs n ≤ j) &&
    decide (j < clusterOffset cs n + (cs.getD n []).length)

/-- Every place row of the first state persists in the second with the
same id and the same human label. -/
def namesPreserved (db db2 : DB) : Prop :=
  ∀ p ∈ db.places, ∃ q ∈ db2.places, q.id = p.id ∧ q.name = p.name

/-- Shorthand for an unprocessed GPS sample of the single tracked user in
the concrete scenarios. -/
def mkPt (i : Nat) (lat lng : ℚ) (t : ℤ) : LocationPoint :=
  { id := i, user_id := "u", latitude := lat, longitude := lng,
    speed := none, timestamp := t, place_id := none }

/-- A fresh unlabeled place row for the concrete scenarios. -/
def mkPlace (i : Nat) (lat lng : ℚ) : Place :=
  { id := i, user_id := "u", name := none, category := none,
    center_lat := lat, center_lng := lng, radius := 50, address := none,
    google_place_id := none, google_place_name := none, visit_count := 0 }

/-- Scenario for the visit counter invariant: one place, no visits yet. -/
def dbC1 : DB :=
  { location_points := [], places := [mkPlace 1 0 0], place_visits := [],
    nextPlaceId := 2, nextVisitId := 1 }

/-- A visit of place 1 recorded twice in the counter scenario. -/
def visitC1 : VisitInput :=
  { user_id := "u", place_id := 1, arrival_time := 0,
    departure_time := some 300000, duration_minutes := some 5 }

/-- Scenario for the transient cluster rule: two samples at one spot two
minutes apart, a single cluster below the five minute threshold. -/
def dbC2 : DB :=
  { location_points := [mkPt 1 0 0 0, mkPt 2 0 0 120000], places := [],
    place_visits := [], nextPlaceId := 1, nextVisitId := 1 }

/-- Scenario for the atomicity claim: one place, no visits yet. -/
def dbC3 : DB :=
  { location_points := [], places := [mkPlace 1 0 0], place_visits := [],
    nextPlaceId := 2, nextVisitId := 1 }

/-- The genuinely new visit of the atomicity scenario. -/
def visitC3 : VisitInput :=
  { user_id := "u", place_id := 1, arrival_time := 0,
    departure_time := some 300000, duration_minutes := some 5 }

/-- Scenario for idempotence: a transient stay at the origin (minutes 0
to 2), a six minute stay at a distant spot (minutes 10 to 16), then a
second transient stay back at the origin (minutes 20 to 22). -/
def dbC7 : DB :=
  { location_points :=
      [mkPt 1 0 0 0, mkPt 2 0 0 120000,
       mkPt 3 1 0 600000, mkPt 4 1 0 960000,
       mkPt 5 0 0 1200000, mkPt 6 0 0 1320000],
    places := [], place_visits := [], nextPlaceId := 1, nextVisitId := 1 }

/-- One run of the engine over the idempotence scenario with the default
thresholds. -/
def runC7 (db : DB) : DB :=
  processUnprocessedLocations dist0 dist0 5 50 "u" db

/-- Scenario for the travel statistics window: the first sample carries
the highest reported speed. -/
def dbC8 : DB :=
  { location_points :=
      [{ id := 1, user_id := "u", latitude := 0, longitude := 0,
         speed := some 3, timestamp := 0, place_id := none },
       { id := 2, user_id := "u", latitude := 1, longitude := 0,
         speed := some 1, timestamp := 500000, place_id := none }],
    places := [], place_visits := [], nextPlaceId := 1, nextVisitId := 1 }

/-- Scenario for label preservation: place 1 carries a Google place id,
place 2 is a separate engine-created place at other coordinates. -/
def dbC9 : DB :=
  { location_points := [],
    places :=
      [{ mkPlace 1 0 0 with google_place_id := some "G" },
       { mkPlace 2 5 5 with name := some "Home" }],
    place_visits := [], nextPlaceId := 3, nextVisitId := 1 }

/-- The label preservation scenario after place 1 is manually labeled. -/
def dbC9L : DB := labelPlace "u" 1 "Work" none dbC9

/-- Points of the order sensitivity scenario: two samples share a capture
timestamp at distant coordinates, a third sits at the first spot one
minute later. -/
def pA : LocationPoint := mkPt 1 0 0 0

/-- The distant point of the order sensitivity scenario. -/
def pB : LocationPoint := mkPt 2 1 0 0

/-- The returning point of the order sensitivity scenario. -/
def pC : LocationPoint := mkPt 3 0 0 60000

/-- C1: recording the same (subject, place, arrival) visit twice leaves one
visit row for the place but a visit counter of two: the counter increment
runs on conflict-updates as well, so the counter does not equal the number
of visit rows referencing the place. -/
theorem recordPlaceVisit_conflict_still_increments :
    ((recordPlaceVisit visitC1 (recordPlaceVisit visitC1 dbC1)).place_visits.filter
      (fun w => w.place_id == 1)).length = 1 ∧
    (recordPlaceVisit visitC1 (recordPlaceVisit visitC1 dbC1)).places.map
      Place.visit_count = [2] := by
  decide

unseal Rat.add Rat.mul Rat.inv Rat.sub in
/-- C2: a cluster below the minimum stay threshold leaves the state
entirely unchanged, so its member points keep a NULL place reference and
the unprocessed query returns them again. -/
theorem transient_cluster_points_returned_again :
    processUnprocessedLocations dist0 dist0 5 50 "u" dbC2 = dbC2 ∧
    getUnprocessedLocations "u" 1000
      (processUnprocessedLocations dist0 dist0 5 50 "u" dbC2) =
      [mkPt 1 0 0 0, mkPt 2 0 0 120000] ∧
    (processUnprocessedLocations dist0 dist0 5 50 "u" dbC2).place_visits = [] := by
  decide

/-- C3 counterexample: after the first auto-committed statement of
recordPlaceVisit the visit row is durably written while every place row,
the counter included, is untouched; a failure of the following counter
statement therefore leaves partial visit state, not the unchanged state
the claim demands. -/
theorem recordPlaceVisit_midpoint_partial_state :
    (visitUpsert visitC3 dbC3).place_visits.length = 1 ∧
    dbC3.place_visits.length = 0 ∧
    (visitUpsert visitC3 dbC3).places.map Place.visit_count = [0] ∧
    visitUpsert visitC3 dbC3 ≠ dbC3 ∧
    visitUpsert visitC3 dbC3 ≠ recordPlaceVisit visitC3 dbC3 := by
  decide

unseal Rat.add Rat.mul Rat.inv Rat.sub in
/-- C7: the engine is not idempotent: the first run records one visit and
marks only the significant points, the second run re-reads the never
marked transient points, links them across the now missing middle stay
into a single long cluster and records a second visit. -/
theorem second_run_records_new_visit :
    (runC7 dbC7).place_visits.length = 1 ∧
    (runC7 (runC7 dbC7)).place_visits.length = 2 := by
  decide

unseal Rat.add Rat.mul Rat.inv Rat.sub in
/-- C8 counterexample: the speed aggregates of getTravelStats range only
over rows whose LAG columns are not NULL, which excludes the earliest
window point; with reported speeds 3 then 1 the result reports max 1 and
moving average 1 although the maximum over all window points is 3 and the
mean over all moving samples is 2. -/
theorem travel_stats_skip_first_point :
    (getTravelStats dist0 "u" 0 500000 dbC8).max_speed_mps = 1 ∧
    (getTravelStats dist0 "u" 0 500000 dbC8).average_speed_mps = 1 ∧
    sqlMax ((windowPoints "u" 0 500000 dbC8).filterMap LocationPoint.speed) =
      some 3 ∧
    ((windowPoints "u" 0 500000 dbC8).filterMap LocationPoint.speed).sum /
      (((windowPoints "u" 0 500000 dbC8).filterMap LocationPoint.speed).length : ℚ)
      = 2 := by
  decide

/-- C9 counterexample: place 1 is manually labeled Work; enriching the
distinct place 2, whose geocoding lands on the Google place id already
carried by place 1, conflict-updates place 1 and overwrites its manual
label with the label of place 2. -/
theorem enrich_overwrites_label_of_conflicting_row :
    (dbC9L.places.map fun p => (p.id, p.name)) =
      [(1, some "Work"), (2, some "Home")] ∧
    ((enrichPlace "u" 2 "G" "GN" "GA" none dbC9L).places.map
      fun p => (p.id, p.name)) = [(1, some "Home"), (2, some "Home")] := by
  decide

unseal Rat.add Rat.mul Rat.inv Rat.sub in
/-- C10 counterexample: the inputs are permutations of one another, yet
because the stable sort keeps tied timestamps in input order the linking
pass produces three clusters for one order and two for the other. -/
theorem clusterLocations_order_sensitive :
    List.Perm [pA, pB, pC] [pB, pA, pC] ∧
    clusterLocations dist0 50 [pA, pB, pC] ≠
      clusterLocations dist0 50 [pB, pA, pC] := by
  refine ⟨List.Perm.swap pB pA [pC], ?_⟩
  decide

/-- The concatenation of the clusters built by the linking loop is exactly
the current cluster followed by the remaining points. -/
theorem clusterGo_flatten (link : LocationPoint → LocationPoint → Bool) :
    ∀ (rest : List LocationPoint) (cur : List LocationPoint) (prev : LocationPoint),
      (clusterGo link cur prev rest).flatten = cur ++ rest := by
  intro rest
  induction rest with
  | nil => intro cur prev; simp [clusterGo]
  | cons c rest ih =>
    intro cur prev
    unfold clusterGo
    by_cases h : link prev c
    · simp [h, ih]
    · simp [h, ih]

/-- The run decomposition of the sorted sequence concatenates back to the
sorted sequence. -/
theorem clusterRuns_flatten (link : LocationPoint → LocationPoint → Bool)
    (s : List LocationPoint) : (clusterRuns link s).flatten = s := by
  cases s with
  | nil => rfl
  | cons p ps => simp [clusterRuns, clusterGo_flatten]

/-- The summary record keeps exactly the member points it was built from. -/
theorem createCluster_points (pts : List LocationPoint) :
    (createCluster pts).points = pts := by
  cases pts <;> rfl

/-- C4: the member point multiset union over the output clusters is exactly
the input: the concatenation of the member lists of the clusters returned
by clusterLocations is a permutation of the input list, so every input
point lands in exactly one cluster, none is dropped and none is
duplicated. -/
theorem clusterLocations_partition (dist : ℚ → ℚ → ℚ → ℚ → ℚ) (radius : ℚ)
    (locs : List LocationPoint) :
    (((clusterLocations dist radius locs).map LocationCluster.points).flatten).Perm
      locs := by
  unfold clusterLocations
  by_cases h : locs.isEmpty
  · have : locs = [] := by simpa [List.isEmpty_iff] using h
    simp [h, this]
  · simp only [h, if_neg, Bool.false_eq_true, not_false_iff, if_false]
    rw [List.map_map]
    have hmap : (LocationCluster.points ∘ createCluster) = id := by
      funext pts; exact createCluster_points pts
    rw [hmap, List.map_id, clusterRuns_flatten]
    exact List.perm_insertionSort timeLE locs

/-- Folding addition of a projection starting from an accumulator yields
the accumulator plus the sum of the mapped list. -/
theorem foldl_add_map (f : LocationPoint → ℚ) :
    ∀ (l : List LocationPoint) (a : ℚ),
      l.foldl (fun s q => s + f q) a = a + (l.map f).sum := by
  intro l
  induction l with
  | nil => intro a; simp
  | cons b l ih => intro a; simp [ih, add_assoc]

/-- A min fold is bounded by its initial accumulator. -/
theorem foldl_min_le_init {α : Type} [LinearOrder α] :
    ∀ (l : List α) (a : α), l.foldl min a ≤ a := by
  intro l
  induction l with
  | nil => intro a; simp
  | cons b l ih =>
    intro a
    calc (b :: l).foldl min a = l.foldl min (min a b) := rfl
    _ ≤ min a b := ih (min a b)
    _ ≤ a := min_le_left a b

/-- A min fold is bounded by every member of the list. -/
theorem foldl_min_le_mem {α : Type} [LinearOrder α] :
    ∀ (l : List α) (a x : α), x ∈ l → l.foldl min a ≤ x := by
  intro l
  induction l with
  | nil => intro a x hx; cases hx
  | cons b l ih =>
    intro a x hx
    rcases List.mem_cons.mp hx with h | h
    · subst h
      calc (x :: l).foldl min a = l.foldl min (min a x) := rfl
      _ ≤ min a x := foldl_min_le_init l (min a x)
      _ ≤ x := min_le_right a x
    · exact ih (min a b) x h

/-- A min fold returns the accumulator or a member of the list. -/
theorem foldl_min_mem {α : Type} [LinearOrder α] :
    ∀ (l : List α) (a : α), l.foldl min a = a ∨ l.foldl min a ∈ l := by
  intro l
  induction l with
  | nil => intro a; left; rfl
  | cons b l ih =>
    intro a
    rcases ih (min a b) with h | h
    · rcases min_choice a b with hm | hm
      · left; calc (b :: l).foldl min a = l.foldl min (min a b) := rfl
        _ = min a b := h
        _ = a := hm
      · right
        refine List.mem_cons.mpr (Or.inl ?_)
        calc (b :: l).foldl min a = l.foldl min (min a b) := rfl
        _ = min a b := h
        _ = b := hm
    · right; exact List.mem_cons.mpr (Or.inr h)

/-- A max fold is bounded below by its initial accumulator. -/
theorem foldl_max_ge_init {α : Type} [LinearOrder α] :
    ∀ (l : List α) (a : α), a ≤ l.foldl max a := by
  intro l
  induction l with
  | nil => intro a; simp
  | cons b l ih =>
    intro a
    calc a ≤ max a b := le_max_left a b
    _ ≤ l.foldl max (max a b) := ih (max a b)
    _ = (b :: l).foldl max a := rfl

/-- A max fold is bounded below by every member of the list. -/
theorem foldl_max_ge_mem {α : Type} [LinearOrder α] :
    ∀ (l : List α) (a x : α), x ∈ l → x ≤ l.foldl max a := by
  intro l
  induction l with
  | nil => intro a x hx; cases hx
  | cons b l ih =>
    intro a x hx
    rcases List.mem_cons.mp hx with h | h
    · subst h
      calc x ≤ max a x := le_max_right a x
      _ ≤ l.foldl max (max a x) := foldl_max_ge_init l (max a x)
      _ = (x :: l).foldl max a := rfl
    · exact ih (max a b) x h

/-- A max fold returns the accumulator or a member of the list. -/
theorem foldl_max_mem {α : Type} [LinearOrder α] :
    ∀ (l : List α) (a : α), l.foldl max a = a ∨ l.foldl max a ∈ l := by
  intro l
  induction l with
  | nil => intro a; left; rfl
  | cons b l ih =>
    intro a
    rcases ih (max a b) with h | h
    · rcases max_choice a b with hm | hm
      · left; calc (b :: l).foldl max a = l.foldl max (max a b) := rfl
        _ = max a b := h
        _ = a := hm
      · right
        refine List.mem_cons.mpr (Or.inl ?_)
        calc (b :: l).foldl max a = l.foldl max (max a b) := rfl
        _ = max a b := h
        _ = b := hm
    · right; exact List.mem_cons.mpr (Or.inr h)

/-- The JavaScript rounding of the source agrees with rounding to the
nearest integer, halves upward. -/
theorem jsRound_eq_round (q : ℚ) : jsRound q = round q := (round_eq q).symm

/-- C6: for a nonempty cluster the summary has the arithmetic mean of the
member latitudes and longitudes as centroid, the minimum member timestamp
as start, the maximum member timestamp as end, and the span from start to
end converted to minutes and rounded to the nearest integer as duration;
a single point cluster has duration zero. -/
theorem createCluster_spec (p : LocationPoint) (ps : List LocationPoint) :
    (createCluster (p :: ps)).center_lat
      = ((p :: ps).map LocationPoint.latitude).sum / ((p :: ps).length : ℚ) ∧
    (createCluster (p :: ps)).center_lng
      = ((p :: ps).map LocationPoint.longitude).sum / ((p :: ps).length : ℚ) ∧
    (createCluster (p :: ps)).start_time ∈ (p :: ps).map LocationPoint.timestamp ∧
    (∀ q ∈ p :: ps, (createCluster (p :: ps)).start_time ≤ q.timestamp) ∧
    (createCluster (p :: ps)).end_time ∈ (p :: ps).map LocationPoint.timestamp ∧
    (∀ q ∈ p :: ps, q.timestamp ≤ (createCluster (p :: ps)).end_time) ∧
    (createCluster (p :: ps)).duration_minutes =
      round ((((createCluster (p :: ps)).end_time -
        (createCluster (p :: ps)).start_time : ℤ) : ℚ) / 1000 / 60) ∧
    (createCluster [p]).duration_minutes = 0 := by
  have hlat : (createCluster (p :: ps)).center_lat
      = ((p :: ps).foldl (fun s q => s + LocationPoint.latitude q) 0) /
        ((p :: ps).length : ℚ) := rfl
  have hlng : (createCluster (p :: ps)).center_lng
      = ((p :: ps).foldl (fun s q => s + LocationPoint.longitude q) 0) /
        ((p :: ps).length : ℚ) := rfl
  have hstart : (createCluster (p :: ps)).start_time
      = ((p :: ps).map (fun q => q.timestamp)).foldl min p.timestamp := rfl
  have hstop : (createCluster (p :: ps)).end_time
      = ((p :: ps).map (fun q => q.timestamp)).foldl max p.timestamp := rfl
  refine ⟨?_, ?_, ?_, ?_, ?_, ?_, ?_, ?_⟩
  · rw [hlat, foldl_add_map, zero_add]
  · rw [hlng, foldl_add_map, zero_add]
  · rw [hstart]
    rcases foldl_min_mem ((p :: ps).map (fun q => q.timestamp)) p.timestamp with h | h
    · rw [h]; exact List.mem_map_of_mem _ (List.mem_cons_self p ps)
    · exact h
  · intro q hq
    rw [hstart]
    exact foldl_min_le_mem _ _ _ (List.mem_map_of_mem _ hq)
  · rw [hstop]
    rcases foldl_max_mem ((p :: ps).map (fun q => q.timestamp)) p.timestamp with h | h
    · rw [h]; exact List.mem_map_of_mem _ (List.mem_cons_self p ps)
    · exact h
  · intro q hq
    rw [hstop]
    exact foldl_max_ge_mem _ _ _ (List.mem_map_of_mem _ hq)
  · exact jsRound_eq_round _
  · simp [createCluster, jsRound, min_self, max_self]
    norm_num

/-- Witness for the cluster summary specification at a one point input. -/
theorem createCluster_spec_witness :
    (createCluster [mkPt 1 0 0 0]).center_lat
      = ([mkPt 1 0 0 0].map LocationPoint.latitude).sum /
        (([mkPt 1 0 0 0] : List LocationPoint).length : ℚ) ∧
    (createCluster [mkPt 1 0 0 0]).center_lng
      = ([mkPt 1 0 0 0].map LocationPoint.longitude).sum /
        (([mkPt 1 0 0 0] : List LocationPoint).length : ℚ) ∧
    (createCluster [mkPt 1 0 0 0]).start_time ∈
      [mkPt 1 0 0 0].map LocationPoint.timestamp ∧
    (∀ q ∈ [mkPt 1 0 0 0],
      (createCluster [mkPt 1 0 0 0]).start_time ≤ q.timestamp) ∧
    (createCluster [mkPt 1 0 0 0]).end_time ∈
      [mkPt 1 0 0 0].map LocationPoint.timestamp ∧
    (∀ q ∈ [mkPt 1 0 0 0],
      q.timestamp ≤ (createCluster [mkPt 1 0 0 0]).end_time) ∧
    (createCluster [mkPt 1 0 0 0]).duration_minutes =
      round ((((createCluster [mkPt 1 0 0 0]).end_time -
        (createCluster [mkPt 1 0 0 0]).start_time : ℤ) : ℚ) / 1000 / 60) ∧
    (createCluster [mkPt 1 0 0 0]).duration_minutes = 0 :=
  createCluster_spec (mkPt 1 0 0 0) []

/-- C3 amended: the visit upsert statement alone never touches the places
table or the points table, and for a genuinely new visit key it appends
exactly one visit row; since the counter increment is a separate
auto-committed statement, the state after the first statement is durable
and partial. -/
theorem visitUpsert_commits_partial_state (v : VisitInput) (db : DB)
    (h : db.place_visits.any (visitKeyMatch v) = false) :
    (visitUpsert v db).places = db.places ∧
    (visitUpsert v db).location_points = db.location_points ∧
    (visitUpsert v db).place_visits.length = db.place_visits.length + 1 := by
  unfold visitUpsert
  simp [h]

/-- Witness for the partial state theorem at the concrete scenario. -/
theorem visitUpsert_commits_partial_state_witness :
    dbC3.place_visits.any (visitKeyMatch visitC3) = false ∧
    ((visitUpsert visitC3 dbC3).places = dbC3.places ∧
     (visitUpsert visitC3 dbC3).location_points = dbC3.location_points ∧
     (visitUpsert visitC3 dbC3).place_visits.length =
       dbC3.place_visits.length + 1) :=
  ⟨by decide, visitUpsert_commits_partial_state visitC3 dbC3 (by decide)⟩

/-- Mapping a binary aggregate over a zip is the zipWith of the aggregate. -/
theorem zip_map_eq_zipWith {α β γ : Type} (g : α → β → γ) :
    ∀ (l : List α) (l2 : List β),
      (l.zip l2).map (fun pr => g pr.1 pr.2) = List.zipWith g l l2 := by
  intro l
  induction l with
  | nil => intro l2; simp
  | cons a l ih =>
    intro l2
    cases l2 with
    | nil => simp
    | cons b l2 => simp [ih]

/-- C8 amended: getTravelStats sums the pairwise distances over the
consecutive pairs of the time-ordered window, but its speed aggregates
range only over the window points that have a predecessor, that is all
points except the earliest one: the reported maximum is the greatest
reported speed among those points (zero when none reports a speed) and
the reported average is the mean of their reported speeds above the
half meter per second moving threshold (zero when no sample moves). -/
theorem getTravelStats_window_spec (pdist : ℚ → ℚ → ℚ → ℚ → ℚ)
    (u : String) (s e : ℤ) (db : DB) :
    (getTravelStats pdist u s e db).total_distance_meters =
      (List.zipWith
        (fun a b => pdist b.latitude b.longitude a.latitude a.longitude)
        (windowPoints u s e db) (windowPoints u s e db).tail).sum ∧
    ((windowPoints u s e db).tail.filterMap LocationPoint.speed = [] →
      (getTravelStats pdist u s e db).max_speed_mps = 0) ∧
    ((windowPoints u s e db).tail.filterMap LocationPoint.speed ≠ [] →
      (getTravelStats pdist u s e db).max_speed_mps ∈
        (windowPoints u s e db).tail.filterMap LocationPoint.speed ∧
      ∀ v ∈ (windowPoints u s e db).tail.filterMap LocationPoint.speed,
        v ≤ (getTravelStats pdist u s e db).max_speed_mps) ∧
    ((windowPoints u s e db).tail.filterMap
        (fun q => q.speed.bind (fun sp => if (1 : ℚ) / 2 < sp then some sp else none)) = [] →
      (getTravelStats pdist u s e db).average_speed_mps = 0) ∧
    ((windowPoints u s e db).tail.filterMap
        (fun q => q.speed.bind (fun sp => if (1 : ℚ) / 2 < sp then some sp else none)) ≠ [] →
      (getTravelStats pdist u s e db).average_speed_mps =
        ((windowPoints u s e db).tail.filterMap
          (fun q => q.speed.bind (fun sp => if (1 : ℚ) / 2 < sp then some sp else none))).sum /
        (((windowPoints u s e db).tail.filterMap
          (fun q => q.speed.bind (fun sp => if (1 : ℚ) / 2 < sp then some sp else none))).length : ℚ)) := by
  refine ⟨?_, ?_, ?_, ?_, ?_⟩
  · exact congrArg List.sum
      (zip_map_eq_zipWith
        (fun a b => pdist b.latitude b.longitude a.latitude a.longitude)
        (windowPoints u s e db) (windowPoints u s e db).tail)
  · intro h
    show (sqlMax
      ((windowPoints u s e db).tail.filterMap LocationPoint.speed)).getD 0 = 0
    rw [h]
    rfl
  · intro h
    rcases hs : (windowPoints u s e db).tail.filterMap LocationPoint.speed with
      _ | ⟨x, xs⟩
    · exact absurd hs h
    · have hmax : (getTravelStats pdist u s e db).max_speed_mps =
          xs.foldl max x := by
        show (sqlMax
          ((windowPoints u s e db).tail.filterMap LocationPoint.speed)).getD 0 = _
        rw [hs]
        rfl
      constructor
      · rw [hmax]
        rcases foldl_max_mem xs x with hm | hm
        · rw [hm]; exact List.mem_cons_self x xs
        · exact List.mem_cons.mpr (Or.inr hm)
      · intro v hv
        rw [hmax]
        rcases List.mem_cons.mp hv with hm | hm
        · rw [hm]; exact foldl_max_ge_init xs x
        · exact foldl_max_ge_mem xs x v hm
  · intro h
    show ((if ((windowPoints u s e db).tail.filterMap
        (fun q => q.speed.bind (fun sp => if (1 : ℚ) / 2 < sp then some sp else none))).isEmpty
      then none
      else some (((windowPoints u s e db).tail.filterMap
          (fun q => q.speed.bind (fun sp => if (1 : ℚ) / 2 < sp then some sp else none))).sum /
        (((windowPoints u s e db).tail.filterMap
          (fun q => q.speed.bind (fun sp => if (1 : ℚ) / 2 < sp then some sp else none))).length : ℚ))).getD 0) = 0
    rw [h]
    rfl
  · intro h
    have hie : ((windowPoints u s e db).tail.filterMap
        (fun q => q.speed.bind (fun sp => if (1 : ℚ) / 2 < sp then some sp else none))).isEmpty = false := by
      cases hh : ((windowPoints u s e db).tail.filterMap
          (fun q => q.speed.bind (fun sp => if (1 : ℚ) / 2 < sp then some sp else none))).isEmpty
      · rfl
      · exact absurd (List.isEmpty_iff.mp hh) h
    show ((if ((windowPoints u s e db).tail.filterMap
        (fun q => q.speed.bind (fun sp => if (1 : ℚ) / 2 < sp then some sp else none))).isEmpty
      then none
      else some (((windowPoints u s e db).tail.filterMap
          (fun q => q.speed.bind (fun sp => if (1 : ℚ) / 2 < sp then some sp else none))).sum /
        (((windowPoints u s e db).tail.filterMap
          (fun q => q.speed.bind (fun sp => if (1 : ℚ) / 2 < sp then some sp else none))).length : ℚ))).getD 0) = _
    rw [hie]
    rfl

/-- Name preservation is reflexive. -/
theorem namesPreserved_refl (db : DB) : namesPreserved db db :=
  fun p hp => ⟨p, hp, rfl, rfl⟩

/-- Name preservation composes. -/
theorem namesPreserved_trans {a b c : DB}
    (h1 : namesPreserved a b) (h2 : namesPreserved b c) :
    namesPreserved a c := by
  intro p hp
  obtain ⟨q, hq, hqid, hqn⟩ := h1 p hp
  obtain ⟨r, hr, hrid, hrn⟩ := h2 q hq
  exact ⟨r, hr, hrid.trans hqid, hrn.trans hqn⟩

/-- A step that leaves the places table unchanged preserves names. -/
theorem namesPreserved_of_places_eq {a b : DB} (h : b.places = a.places) :
    namesPreserved a b := by
  intro p hp
  exact ⟨p, h ▸ hp, rfl, rfl⟩

/-- Setting the place reference of a point does not touch the places
table. -/
theorem updateLocationPlace_places (i pid : Nat) (db : DB) :
    (updateLocationPlace i pid db).places = db.places := rfl

/-- The visit upsert statement does not touch the places table. -/
theorem visitUpsert_places (v : VisitInput) (db : DB) :
    (visitUpsert v db).places = db.places := by
  unfold visitUpsert
  by_cases h : db.place_visits.any (visitKeyMatch v) <;> simp [h]

/-- The counter increment maps each place row to a row with the same id
and the same name. -/
theorem bumpVisitCount_np (pid : Nat) (db : DB) :
    namesPreserved db (bumpVisitCount pid db) := by
  intro p hp
  refine ⟨(fun q : Place => if q.id == pid then
    { q with visit_count := q.visit_count + 1 } else q) p,
    List.mem_map_of_mem _ hp, ?_⟩
  by_cases h : p.id == pid <;> simp [h]

/-- The full visit recording preserves every place name. -/
theorem recordPlaceVisit_np (v : VisitInput) (db : DB) :
    namesPreserved db (recordPlaceVisit v db) :=
  namesPreserved_trans
    (namesPreserved_of_places_eq (visitUpsert_places v db))
    (bumpVisitCount_np v.place_id (visitUpsert v db))

/-- An upsert whose google place id is NULL never conflicts. -/
theorem upsertConflict_none (inp : PlaceInput) (db : DB)
    (h : inp.google_place_id = none) : upsertConflict inp db = none := by
  unfold upsertConflict
  rw [h]
  rfl

/-- A conflict-free upsert appends a fresh row and keeps every existing
row untouched. -/
theorem upsertPlace_insert_np (inp : PlaceInput) (db : DB)
    (h : upsertConflict inp db = none) :
    namesPreserved db (upsertPlace inp db).2 := by
  unfold upsertPlace
  rw [h]
  intro p hp
  exact ⟨p, by simp [hp], rfl, rfl⟩

/-- Marking the member points of a cluster leaves the places table
unchanged. -/
theorem foldl_updatePoints_places (pid : Nat) :
    ∀ (l : List LocationPoint) (db : DB),
      (l.foldl (fun d pt => if pt.id ≠ 0 then updateLocationPlace pt.id pid d
        else d) db).places = db.places := by
  intro l
  induction l with
  | nil => intro db; rfl
  | cons pt l ih =>
    intro db
    have hstep : ((if pt.id ≠ 0 then updateLocationPlace pt.id pid db
        else db)).places = db.places := by
      by_cases h : pt.id ≠ 0 <;> simp [h, updateLocationPlace_places]
    calc ((pt :: l).foldl _ db).places
        = (l.foldl _ (if pt.id ≠ 0 then updateLocationPlace pt.id pid db
            else db)).places := rfl
      _ = _ := by rw [ih, hstep]

/-- Processing one cluster preserves every place name: the place lookup is
read-only, a created place is a fresh appended row, the point updates and
the visit recording never change a name. -/
theorem processCluster_np (pdist : ℚ → ℚ → ℚ → ℚ → ℚ) (ms r : ℚ)
    (u : String) (db : DB) (c : LocationCluster) :
    namesPreserved db (processCluster pdist ms r u db c) := by
  unfold processCluster
  by_cases h : (c.duration_minutes : ℚ) ≥ ms
  · simp only [h, if_true]
    rcases hf : findPlaceNear pdist u c.center_lat c.center_lng r db with _ | p
    · refine namesPreserved_trans (upsertPlace_insert_np
        { user_id := u, name := none, category := none,
          center_lat := c.center_lat, center_lng := c.center_lng,
          radius := r, address := none, google_place_id := none,
          google_place_name := none } db
        (upsertConflict_none _ db rfl)) ?_
      refine namesPreserved_trans
        (namesPreserved_of_places_eq (foldl_updatePoints_places _ c.points _))
        (recordPlaceVisit_np _ _)
    · refine namesPreserved_trans (namesPreserved_refl db) ?_
      refine namesPreserved_trans
        (namesPreserved_of_places_eq (foldl_updatePoints_places _ c.points _))
        (recordPlaceVisit_np _ _)
  · simp only [h, if_false]
    exact namesPreserved_refl db

/-- Folding cluster processing over any cluster list preserves every place
name. -/
theorem foldl_processCluster_np (pdist : ℚ → ℚ → ℚ → ℚ → ℚ) (ms r : ℚ)
    (u : String) :
    ∀ (cs : List LocationCluster) (db : DB),
      namesPreserved db (cs.foldl (processCluster pdist ms r u) db) := by
  intro cs
  induction cs with
  | nil => intro db; exact namesPreserved_refl db
  | cons c cs ih =>
    intro db
    exact namesPreserved_trans (processCluster_np pdist ms r u db c)
      (ih (processCluster pdist ms r u db c))

/-- A whole engine run preserves every place name. -/
theorem processUnprocessedLocations_np (dist pdist : ℚ → ℚ → ℚ → ℚ → ℚ)
    (ms r : ℚ) (u : String) (db : DB) :
    namesPreserved db (processUnprocessedLocations dist pdist ms r u db) := by
  unfold processUnprocessedLocations
  by_cases h : (getUnprocessedLocations u 1000 db).isEmpty
  · simp only [h, if_true]
    exact namesPreserved_refl db
  · simp only [h, if_false]
    exact foldl_processCluster_np pdist ms r u _ db

/-- A conflict row comes from the places table and matches the user and
the google place id of the input. -/
theorem upsertConflict_some_mem {inp : PlaceInput} {db : DB} {row : Place}
    (hc : upsertConflict inp db = some row) :
    row ∈ db.places := by
  unfold upsertConflict at hc
  by_cases h : inp.google_place_id.isSome
  · rw [if_pos h] at hc
    exact List.mem_of_find?_eq_some hc
  · rw [if_neg h] at hc
    cases hc

/-- Effect of the conflict-update branch of upsertPlace on an arbitrary
existing row: the row keeps its id, and keeps its name unless it is the
conflict row, in which case the name becomes the COALESCE of the input
name with its own. -/
theorem upsertPlace_update_effect (inp : PlaceInput) (db : DB) (row : Place)
    (hc : upsertConflict inp db = some row)
    (hnd : (db.places.map Place.id).Nodup) :
    ∀ p ∈ db.places,
      ∃ q ∈ (upsertPlace inp db).2.places, q.id = p.id ∧
        q.name = (if p.id = row.id then inp.name.or p.name else p.name) := by
  intro p hp
  unfold upsertPlace
  rw [hc]
  simp only
  by_cases hb : p.id = row.id
  · have hpr : p = row :=
      List.inj_on_of_nodup_map hnd hp (upsertConflict_some_mem hc) hb
    refine ⟨{ row with
        name := inp.name.or row.name,
        category := inp.category.or row.category,
        address := inp.address.or row.address,
        google_place_name := inp.google_place_name.or row.google_place_name },
      ?_, by simp [hb], ?_⟩
    · refine List.mem_map.mpr ⟨p, hp, ?_⟩
      rw [if_pos (by simp [hb])]
    · rw [if_pos hb, hpr]
  · refine ⟨p, ?_, rfl, by rw [if_neg hb]⟩
    refine List.mem_map.mpr ⟨p, hp, ?_⟩
    rw [if_neg (by simp [hb])]

/-- Rows after a conflict-free upsert: each is an old row or carries the
fresh SERIAL id. -/
theorem upsertPlace_insert_mem (inp : PlaceInput) (db : DB)
    (hc : upsertConflict inp db = none) :
    ∀ q ∈ (upsertPlace inp db).2.places,
      q ∈ db.places ∨ q.id = db.nextPlaceId := by
  unfold upsertPlace
  rw [hc]
  intro q hq
  rcases List.mem_append.mp hq with h | h
  · exact Or.inl h
  · right
    rw [List.mem_singleton] at h
    subst h
    rfl

/-- Rows after a conflict-update upsert: each is an old row or the merged
conflict row, which keeps the conflict row id and takes the COALESCE of
the input name with the conflict row name. -/
theorem upsertPlace_update_mem (inp : PlaceInput) (db : DB) (row : Place)
    (hc : upsertConflict inp db = some row) :
    ∀ q ∈ (upsertPlace inp db).2.places,
      q ∈ db.places ∨ (q.id = row.id ∧ q.name = inp.name.or row.name) := by
  unfold upsertPlace
  rw [hc]
  intro q hq
  obtain ⟨q0, hq0, hfq⟩ := List.mem_map.mp hq
  by_cases hb : (q0.id == row.id) = true
  · right
    rw [← hfq, if_pos hb]
    exact ⟨rfl, rfl⟩
  · left
    rw [← hfq, if_neg hb]
    exact hq0

/-- Enrichment leaves the name of the enriched place itself unchanged:
the reverse geocode result carries no name field, so the upsert passes the
existing label through, and a conflict row equal to the target merges its
own name with itself. -/
theorem enrichPlace_target_name (u : String) (pid : Nat) (g gn ga : String)
    (gc : Option String) (db : DB)
    (hnd : (db.places.map Place.id).Nodup) :
    ∀ p ∈ db.places, p.id = pid →
      ∃ q ∈ (enrichPlace u pid g gn ga gc db).places,
        q.id = p.id ∧ q.name = p.name := by
  intro p hp hpid
  rcases hf : (getAllPlaces u db).find? (fun x => x.id == pid) with _ | place
  · have heq : enrichPlace u pid g gn ga gc db = db := by
      unfold enrichPlace
      rw [hf]
    rw [heq]
    exact ⟨p, hp, rfl, rfl⟩
  · have heq : enrichPlace u pid g gn ga gc db =
        (upsertPlace
          { user_id := place.user_id, name := place.name,
            category := gc.or place.category,
            center_lat := place.center_lat, center_lng := place.center_lng,
            radius := place.radius, address := some ga,
            google_place_id := some g, google_place_name := some gn } db).2 := by
      unfold enrichPlace
      rw [hf]
    rw [heq]
    have hplmem : place ∈ db.places :=
      List.mem_of_mem_filter (List.mem_of_find?_eq_some hf)
    have hplid : place.id = pid := by
      have := List.find?_some hf
      simpa using this
    have hpp : place = p :=
      List.inj_on_of_nodup_map hnd hplmem hp (by rw [hplid, hpid])
    rcases hc : upsertConflict
        { user_id := place.user_id, name := place.name,
          category := gc.or place.category,
          center_lat := place.center_lat, center_lng := place.center_lng,
          radius := place.radius, address := some ga,
          google_place_id := some g, google_place_name := some gn } db
      with _ | row
    · exact upsertPlace_insert_np _ db hc p hp
    · obtain ⟨q, hq, hqid, hqname⟩ :=
        upsertPlace_update_effect _ db row hc hnd p hp
      refine ⟨q, hq, hqid, ?_⟩
      by_cases hb : p.id = row.id
      · rw [hqname, if_pos hb]
        show place.name.or p.name = p.name
        rw [hpp]
        exact Option.or_self
      · rw [hqname, if_neg hb]

/-- Enrichment never clears a label: a row keeping its identity after any
enrichment call still carries a name whenever it carried one before. -/
theorem enrichPlace_never_clears (u : String) (pid : Nat) (g gn ga : String)
    (gc : Option String) (db : DB)
    (hnd : (db.places.map Place.id).Nodup)
    (hbound : ∀ p ∈ db.places, p.id < db.nextPlaceId) :
    ∀ p ∈ db.places, p.name.isSome = true →
      ∀ q ∈ (enrichPlace u pid g gn ga gc db).places,
        q.id = p.id → q.name.isSome = true := by
  intro p hp hpn q hq hqid
  rcases hf : (getAllPlaces u db).find? (fun x => x.id == pid) with _ | place
  · have heq : enrichPlace u pid g gn ga gc db = db := by
      unfold enrichPlace
      rw [hf]
    rw [heq] at hq
    have : q = p := List.inj_on_of_nodup_map hnd hq hp hqid
    rw [this]
    exact hpn
  · have heq : enrichPlace u pid g gn ga gc db =
        (upsertPlace
          { user_id := place.user_id, name := place.name,
            category := gc.or place.category,
            center_lat := place.center_lat, center_lng := place.center_lng,
            radius := place.radius, address := some ga,
            google_place_id := some g, google_place_name := some gn } db).2 := by
      unfold enrichPlace
      rw [hf]
    rw [heq] at hq
    rcases hc : upsertConflict
        { user_id := place.user_id, name := place.name,
          category := gc.or place.category,
          center_lat := place.center_lat, center_lng := place.center_lng,
          radius := place.radius, address := some ga,
          google_place_id := some g, google_place_name := some gn } db
      with _ | row
    · rcases upsertPlace_insert_mem _ db hc q hq with h | h
      · have : q = p := List.inj_on_of_nodup_map hnd h hp hqid
        rw [this]
        exact hpn
      · exfalso
        have hlt := hbound p hp
        rw [← hqid, h] at hlt
        exact lt_irrefl _ hlt
    · rcases upsertPlace_update_mem _ db row hc q hq with h | ⟨hid, hname⟩
      · have : q = p := List.inj_on_of_nodup_map hnd h hp hqid
        rw [this]
        exact hpn
      · have hrow : row ∈ db.places := upsertConflict_some_mem hc
        have hrp : row = p :=
          List.inj_on_of_nodup_map hnd hrow hp (by rw [← hqid, ← hid])
        rw [hname, hrp, Option.isSome_or, hpn, Bool.or_true]

/-- C9 amended: a reprocessing run never changes any place label, an
enrichment call never changes the label of the enriched place itself and
never clears any label; the counterexample shows the remaining gap, an
enrichment call may overwrite the label of a different row that shares
the google place id. -/
theorem label_preservation_amended (dist pdist : ℚ → ℚ → ℚ → ℚ → ℚ)
    (ms r : ℚ) (u : String) (pid : Nat) (g gn ga : String)
    (gc : Option String) (db : DB)
    (hnd : (db.places.map Place.id).Nodup)
    (hbound : ∀ p ∈ db.places, p.id < db.nextPlaceId) :
    namesPreserved db (processUnprocessedLocations dist pdist ms r u db) ∧
    (∀ p ∈ db.places, p.id = pid →
      ∃ q ∈ (enrichPlace u pid g gn ga gc db).places,
        q.id = p.id ∧ q.name = p.name) ∧
    (∀ p ∈ db.places, p.name.isSome = true →
      ∀ q ∈ (enrichPlace u pid g gn ga gc db).places,
        q.id = p.id → q.name.isSome = true) :=
  ⟨processUnprocessedLocations_np dist pdist ms r u db,
   enrichPlace_target_name u pid g gn ga gc db hnd,
   enrichPlace_never_clears u pid g gn ga gc db hnd hbound⟩

/-- Witness for the amended label preservation theorem at the labeled
concrete state. -/
theorem label_preservation_amended_witness :
    ((dbC9L.places.map Place.id).Nodup ∧
     (∀ p ∈ dbC9L.places, p.id < dbC9L.nextPlaceId)) ∧
    (namesPreserved dbC9L
      (processUnprocessedLocations dist0 dist0 5 50 "u" dbC9L) ∧
     (∀ p ∈ dbC9L.places, p.id = 1 →
       ∃ q ∈ (enrichPlace "u" 1 "G" "GN" "GA" none dbC9L).places,
         q.id = p.id ∧ q.name = p.name) ∧
     (∀ p ∈ dbC9L.places, p.name.isSome = true →
       ∀ q ∈ (enrichPlace "u" 1 "G" "GN" "GA" none dbC9L).places,
         q.id = p.id → q.name.isSome = true)) :=
  ⟨⟨by decide, by decide⟩,
   label_preservation_amended dist0 dist0 5 50 "u" 1 "G" "GN" "GA" none dbC9L
     (by decide) (by decide)⟩

/-- C10 amended: on inputs whose capture timestamps are pairwise distinct
the clustering is insensitive to input order, because the sort result is
then uniquely determined; the counterexample shows the restriction is
needed when timestamps tie. -/
theorem clusterLocations_perm_invariant (dist : ℚ → ℚ → ℚ → ℚ → ℚ)
    (radius : ℚ) (l1 l2 : List LocationPoint) (hp : l1.Perm l2)
    (ht : (l1.map LocationPoint.timestamp).Nodup) :
    clusterLocations dist radius l1 = clusterLocations dist radius l2 := by
  have hsort : sortByTime l1 = sortByTime l2 := by
    have hr : IsAntisymm LocationPoint
        (fun p q => p.timestamp < q.timestamp) :=
      ⟨fun a b h1 h2 => absurd (lt_trans h1 h2) (lt_irrefl _)⟩
    have hperm : (sortByTime l1).Perm (sortByTime l2) :=
      ((List.perm_insertionSort timeLE l1).trans hp).trans
        (List.perm_insertionSort timeLE l2).symm
    have hnd1 : ((sortByTime l1).map LocationPoint.timestamp).Nodup :=
      (((List.perm_insertionSort timeLE l1).map
        LocationPoint.timestamp).nodup_iff).mpr ht
    have hnd2 : ((sortByTime l2).map LocationPoint.timestamp).Nodup := by
      refine (((List.perm_insertionSort timeLE l2).map
        LocationPoint.timestamp).nodup_iff).mpr ?_
      exact ((hp.map LocationPoint.timestamp).nodup_iff).mp ht
    have hstrict : ∀ (l : List LocationPoint),
        l.Sorted timeLE → (l.map LocationPoint.timestamp).Nodup →
        l.Sorted (fun p q => p.timestamp < q.timestamp) := by
      intro l hs hnd
      have hne : l.Pairwise (fun p q => p.timestamp ≠ q.timestamp) :=
        (List.pairwise_map).mp hnd
      exact (hs.and hne).imp (fun h => lt_of_le_of_ne h.1 h.2)
    exact @List.eq_of_perm_of_sorted _ _ hr _ _ hperm
      (hstrict _ (List.sorted_insertionSort timeLE l1) hnd1)
      (hstrict _ (List.sorted_insertionSort timeLE l2) hnd2)
  cases hl1 : l1 with
  | nil =>
    have hl2 : l2 = [] := by
      rw [hl1] at hp
      exact hp.nil_eq.symm
    rw [hl2]
  | cons a t1 =>
    have hne2 : l2 ≠ [] := by
      intro hl2
      rw [hl1, hl2] at hp
      exact absurd hp.symm.nil_eq (by simp)
    have h1 : l1.isEmpty = false := by rw [hl1]; rfl
    have h2 : l2.isEmpty = false := by
      cases hl2 : l2 with
      | nil => exact absurd hl2 hne2
      | cons b t2 => rfl
    rw [← hl1]
    unfold clusterLocations
    rw [h1, h2, hsort]

/-- Witness for the permutation invariance theorem on two points with
distinct timestamps. -/
theorem clusterLocations_perm_invariant_witness :
    ([pA, pC].Perm [pC, pA] ∧
      (([pA, pC].map LocationPoint.timestamp).Nodup)) ∧
    clusterLocations dist0 50 [pA, pC] = clusterLocations dist0 50 [pC, pA] :=
  ⟨⟨List.Perm.swap pC pA [], by decide⟩,
   clusterLocations_perm_invariant dist0 50 [pA, pC] [pC, pA]
     (List.Perm.swap pC pA []) (by decide)⟩

/-- Witness for the travel statistics window specification at the two
point scenario. -/
theorem getTravelStats_window_spec_witness :
    ((windowPoints "u" 0 500000 dbC8).tail.filterMap LocationPoint.speed ≠ []) ∧
    ((getTravelStats dist0 "u" 0 500000 dbC8).max_speed_mps ∈
      (windowPoints "u" 0 500000 dbC8).tail.filterMap LocationPoint.speed ∧
     ∀ v ∈ (windowPoints "u" 0 500000 dbC8).tail.filterMap LocationPoint.speed,
       v ≤ (getTravelStats dist0 "u" 0 500000 dbC8).max_speed_mps) :=
  ⟨by decide,
   (getTravelStats_window_spec dist0 "u" 0 500000 dbC8).2.2.1 (by decide)⟩

/-- Every cluster emitted by the linking loop is nonempty when the current
cluster is. -/
theorem clusterGo_ne_nil (link : LocationPoint → LocationPoint → Bool) :
    ∀ (rest cur : List LocationPoint) (prev : LocationPoint), cur ≠ [] →
      ∀ c ∈ clusterGo link cur prev rest, c ≠ [] := by
  intro rest
  induction rest with
  | nil =>
    intro cur prev hne c hc
    simp only [clusterGo, List.mem_singleton] at hc
    rw [hc]
    exact hne
  | cons x rest ih =>
    intro cur prev hne c hc
    unfold clusterGo at hc
    by_cases h : link prev x
    · rw [if_pos h] at hc
      exact ih (cur ++ [x]) x (by simp) c hc
    · rw [if_neg h] at hc
      rcases List.mem_cons.mp hc with h1 | h1
      · rw [h1]; exact hne
      · exact ih [x] x (by simp) c h1

/-- Every cluster emitted by the linking loop satisfies the link relation
between each adjacent pair of its members, provided the current cluster
does and ends in the previous point. -/
theorem clusterGo_chain (link : LocationPoint → LocationPoint → Bool) :
    ∀ (rest cur : List LocationPoint) (prev : LocationPoint),
      cur.Chain' (fun a b => link a b = true) → cur.getLast? = some prev →
      ∀ c ∈ clusterGo link cur prev rest,
        c.Chain' (fun a b => link a b = true) := by
  intro rest
  induction rest with
  | nil =>
    intro cur prev hch _ c hc
    simp only [clusterGo, List.mem_singleton] at hc
    rw [hc]
    exact hch
  | cons x rest ih =>
    intro cur prev hch hlast c hc
    unfold clusterGo at hc
    by_cases h : link prev x
    · rw [if_pos h] at hc
      refine ih (cur ++ [x]) x ?_ (List.getLast?_concat cur) c hc
      refine (List.chain'_append).mpr ⟨hch, List.chain'_singleton x, ?_⟩
      intro a ha b hb
      rw [hlast] at ha
      rw [Option.mem_some_iff] at ha
      simp only [List.head?_cons, Option.mem_some_iff] at hb
      rw [← ha, ← hb]
      exact h
    · rw [if_neg h] at hc
      rcases List.mem_cons.mp hc with h1 | h1
      · rw [h1]; exact hch
      · exact ih [x] x (List.chain'_singleton x) rfl c h1

/-- The first cluster emitted by the linking loop starts with the head of
the current cluster. -/
theorem clusterGo_head (link : LocationPoint → LocationPoint → Bool) :
    ∀ (rest cur : List LocationPoint) (prev : LocationPoint), cur ≠ [] →
      ∃ c cs, clusterGo link cur prev rest = c :: cs ∧ c.head? = cur.head? := by
  intro rest
  induction rest with
  | nil =>
    intro cur prev _
    exact ⟨cur, [], rfl, rfl⟩
  | cons x rest ih =>
    intro cur prev hne
    unfold clusterGo
    by_cases h : link prev x
    · rw [if_pos h]
      obtain ⟨c, cs, heq, hhead⟩ := ih (cur ++ [x]) x (by simp)
      refine ⟨c, cs, heq, ?_⟩
      rw [hhead]
      cases cur with
      | nil => exact absurd rfl hne
      | cons a t => rfl
    · rw [if_neg h]
      exact ⟨cur, clusterGo link [x] x rest, rfl, rfl⟩

/-- Between two consecutive clusters emitted by the linking loop the link
relation fails from the last member of the first to the first member of
the second. -/
theorem clusterGo_boundary (link : LocationPoint → LocationPoint → Bool) :
    ∀ (rest cur : List LocationPoint) (prev : LocationPoint),
      cur.getLast? = some prev →
      (clusterGo link cur prev rest).Chain'
        (fun c d => ∀ x, c.getLast? = some x → ∀ y, d.head? = some y →
          link x y = false) := by
  intro rest
  induction rest with
  | nil =>
    intro cur prev _
    exact List.chain'_singleton cur
  | cons x rest ih =>
    intro cur prev hlast
    unfold clusterGo
    by_cases h : link prev x
    · rw [if_pos h]
      exact ih (cur ++ [x]) x (List.getLast?_concat cur)
    · rw [if_neg h]
      refine (List.chain'_cons').mpr ⟨?_, ih [x] x rfl⟩
      intro b hb
      obtain ⟨c, cs, heq, hhead⟩ := clusterGo_head link rest [x] x (by simp)
      rw [heq] at hb
      simp only [List.head?_cons, Option.mem_some_iff] at hb
      subst hb
      intro a ha y hy
      rw [hlast, Option.some_inj] at ha
      rw [hhead] at hy
      simp only [List.head?_cons, Option.some_inj] at hy
      rw [← ha, ← hy]
      exact Bool.eq_false_iff.mpr h

/-- Offset of a later cluster in a cons decomposition. -/
theorem clusterOffset_succ (c : List LocationPoint)
    (cs : List (List LocationPoint)) (n : Nat) :
    clusterOffset (c :: cs) (n + 1) = c.length + clusterOffset cs n := by
  simp [clusterOffset]

/-- Membership form of the same-cluster test. -/
theorem inSameClusterB_iff (cs : List (List LocationPoint)) (i j : Nat) :
    inSameClusterB cs i j = true ↔
      ∃ n, n < cs.length ∧ clusterOffset cs n ≤ i ∧
        i < clusterOffset cs n + (cs.getD n []).length ∧
        clusterOffset cs n ≤ j ∧
        j < clusterOffset cs n + (cs.getD n []).length := by
  simp [inSameClusterB, List.any_eq_true, List.mem_range, and_assoc]

/-- Adjacent links of a chain, stated on total indexing. -/
theorem chain'_getD (L : LocationPoint → LocationPoint → Bool)
    (p0 : LocationPoint) :
    ∀ (l : List LocationPoint), l.Chain' (fun a b => L a b = true) →
      ∀ m, m + 1 < l.length → L (l.getD m p0) (l.getD (m+1) p0) = true := by
  intro l
  induction l with
  | nil => intro _ m hm; simp at hm
  | cons a l ih =>
    intro hch m hm
    cases l with
    | nil => simp at hm
    | cons b l2 =>
      rcases List.chain'_cons.mp hch with ⟨hab, htail⟩
      cases m with
      | zero => simpa using hab
      | succ m2 =>
        have := ih htail m2 (by simpa using hm)
        simpa using this

/-- The last entry of a nonempty list on total indexing. -/
theorem getLast?_eq_getD (p0 : LocationPoint) {l : List LocationPoint}
    (h : l ≠ []) : l.getLast? = some (l.getD (l.length - 1) p0) := by
  have hlen : 0 < l.length := List.length_pos.mpr h
  have h1 : l.length - 1 < l.length := by omega
  rw [List.getLast?_eq_getElem?, List.getElem?_eq_getElem h1,
    List.getD_eq_getElem l p0 h1]

/-- The head of a nonempty list on total indexing. -/
theorem head?_eq_getD (p0 : LocationPoint) {l : List LocationPoint}
    (h : l ≠ []) : l.head? = some (l.getD 0 p0) := by
  have hlen : 0 < l.length := List.length_pos.mpr h
  rw [List.head?_eq_getElem?, List.getElem?_eq_getElem hlen,
    List.getD_eq_getElem l p0 hlen]

/-- Segment decomposition characterisation: in a decomposition whose
clusters are nonempty, internally chained and separated by failing links,
two positions lie in a common cluster exactly when the link holds between
every temporally adjacent pair of the concatenated sequence strictly after
the first position and up to the second. -/
theorem segs_same_iff (L : LocationPoint → LocationPoint → Bool)
    (p0 : LocationPoint) :
    ∀ (cs : List (List LocationPoint)) (i j : Nat), i ≤ j →
      j < cs.flatten.length →
      (∀ c ∈ cs, c ≠ []) →
      (∀ c ∈ cs, c.Chain' (fun a b => L a b = true)) →
      cs.Chain' (fun c d => ∀ x, c.getLast? = some x →
        ∀ y, d.head? = some y → L x y = false) →
      (inSameClusterB cs i j = true ↔
        ∀ k, i < k → k ≤ j →
          L (cs.flatten.getD (k-1) p0) (cs.flatten.getD k p0) = true) := by
  intro cs
  induction cs with
  | nil =>
    intro i j _ hj _ _ _
    simp at hj
  | cons c cs ih =>
    intro i j hij hj hne hch hbd
    have hcne : c ≠ [] := hne c (List.mem_cons_self c cs)
    have hflat : (c :: cs).flatten = c ++ cs.flatten := List.flatten_cons
    by_cases hjc : j < c.length
    · -- both positions inside the first cluster
      apply iff_of_true
      · rw [inSameClusterB_iff]
        refine ⟨0, by simp, by simp [clusterOffset], ?_, by simp [clusterOffset], ?_⟩
        · simpa [clusterOffset] using lt_of_le_of_lt hij hjc
        · simpa [clusterOffset] using hjc
      · intro k hik hkj
        have hk1 : k < c.length := lt_of_le_of_lt hkj hjc
        have hgd1 : (c :: cs).flatten.getD (k-1) p0 = c.getD (k-1) p0 := by
          rw [hflat]
          exact List.getD_append _ _ p0 _ (by omega)
        have hgd2 : (c :: cs).flatten.getD k p0 = c.getD k p0 := by
          rw [hflat]
          exact List.getD_append _ _ p0 _ hk1
        rw [hgd1, hgd2]
        have hlk := chain'_getD L p0 c (hch c (List.mem_cons_self c cs))
          (k-1) (by omega)
        have hkk : k - 1 + 1 = k := by omega
        rw [hkk] at hlk
        exact hlk
    · by_cases hic : i < c.length
      · -- the positions straddle the boundary after the first cluster
        apply iff_of_false
        · rw [inSameClusterB_iff]
          rintro ⟨n, hn, ho1, ho2, ho3, ho4⟩
          cases n with
          | zero =>
            simp only [clusterOffset, List.take_zero, List.map_nil,
              List.sum_nil, List.getD_cons_zero, zero_add] at ho4
            omega
          | succ m =>
            rw [clusterOffset_succ] at ho1
            omega
        · intro hall
          cases hcs : cs with
          | nil =>
            rw [hcs] at hj
            simp only [List.flatten_cons, List.flatten_nil,
              List.append_nil, List.length_append] at hj
            omega
          | cons d cs2 =>
            have hdne : d ≠ [] := by
              refine hne d ?_
              rw [hcs]
              exact List.mem_cons.mpr (Or.inr (List.mem_cons_self d cs2))
            have hbd2 : ∀ x, c.getLast? = some x →
                ∀ y, d.head? = some y → L x y = false := by
              rw [hcs] at hbd
              exact (List.chain'_cons.mp hbd).1
            have hk := hall c.length (by omega) (by omega)
            have hgd1 : (c :: cs).flatten.getD (c.length - 1) p0 =
                c.getD (c.length - 1) p0 := by
              rw [hflat]
              refine List.getD_append _ _ p0 _ ?_
              have : 0 < c.length := List.length_pos.mpr hcne
              omega
            have hgd2 : (c :: cs).flatten.getD c.length p0 =
                d.getD 0 p0 := by
              rw [hflat]
              rw [List.getD_append_right _ _ p0 _ (le_refl c.length)]
              rw [Nat.sub_self, hcs]
              rw [List.flatten_cons]
              refine List.getD_append _ _ p0 _ ?_
              exact List.length_pos.mpr hdne
            rw [hgd1, hgd2] at hk
            have hfalse := hbd2 _ (getLast?_eq_getD p0 hcne) _
              (head?_eq_getD p0 hdne)
            rw [hk] at hfalse
            cases hfalse
      · -- both positions in later clusters: shift and recurse
        have hic2 : c.length ≤ i := by omega
        have hshiftL : inSameClusterB (c :: cs) i j = true ↔
            inSameClusterB cs (i - c.length) (j - c.length) = true := by
          rw [inSameClusterB_iff, inSameClusterB_iff]
          constructor
          · rintro ⟨n, hn, ho1, ho2, ho3, ho4⟩
            cases n with
            | zero =>
              simp only [clusterOffset, List.take_zero, List.map_nil,
                List.sum_nil, List.getD_cons_zero, zero_add] at ho2
              omega
            | succ m =>
              rw [clusterOffset_succ] at ho1 ho2 ho3 ho4
              rw [List.getD_cons_succ] at ho2 ho4
              refine ⟨m, by simpa using hn, by omega, by omega, by omega,
                by omega⟩
          · rintro ⟨m, hm, ho1, ho2, ho3, ho4⟩
            refine ⟨m + 1, by simpa using hm, ?_, ?_, ?_, ?_⟩ <;>
              simp only [clusterOffset_succ, List.getD_cons_succ] <;> omega
        have hshiftR : (∀ k, i < k → k ≤ j →
            L ((c :: cs).flatten.getD (k-1) p0)
              ((c :: cs).flatten.getD k p0) = true) ↔
            (∀ k, i - c.length < k → k ≤ j - c.length →
              L (cs.flatten.getD (k-1) p0) (cs.flatten.getD k p0) = true) := by
          constructor
          · intro hall k hk1 hk2
            have hres := hall (k + c.length) (by omega) (by omega)
            have hg1 : (c :: cs).flatten.getD (k + c.length - 1) p0 =
                cs.flatten.getD (k - 1) p0 := by
              rw [hflat]
              rw [List.getD_append_right _ _ p0 _ (by omega)]
              congr 1
              omega
            have hg2 : (c :: cs).flatten.getD (k + c.length) p0 =
                cs.flatten.getD k p0 := by
              rw [hflat]
              rw [List.getD_append_right _ _ p0 _ (by omega)]
              congr 1
              omega
            rw [hg1, hg2] at hres
            exact hres
          · intro hall k hk1 hk2
            have hres := hall (k - c.length) (by omega) (by omega)
            have hg1 : (c :: cs).flatten.getD (k - 1) p0 =
                cs.flatten.getD (k - c.length - 1) p0 := by
              rw [hflat]
              rw [List.getD_append_right _ _ p0 _ (by omega)]
              congr 1
              omega
            have hg2 : (c :: cs).flatten.getD k p0 =
                cs.flatten.getD (k - c.length) p0 := by
              rw [hflat]
              rw [List.getD_append_right _ _ p0 _ (by omega)]
            rw [hg1, hg2]
            exact hres
        have hjlen : j - c.length < cs.flatten.length := by
          rw [hflat] at hj
          rw [List.length_append] at hj
          omega
        have hih := ih (i - c.length) (j - c.length) (by omega) hjlen
          (fun c2 hc2 => hne c2 (List.mem_cons.mpr (Or.inr hc2)))
          (fun c2 hc2 => hch c2 (List.mem_cons.mpr (Or.inr hc2)))
          hbd.tail
        exact hshiftL.trans (hih.trans hshiftR.symm)

/-- C5: two positions of the time-sorted input end up in the same cluster
exactly when every temporally adjacent pair between them, inclusive,
satisfies both the radius bound and the thirty minute gap bound; the
clustering is fully determined by these consecutive pair comparisons. -/
theorem clusterLocations_same_cluster_iff (dist : ℚ → ℚ → ℚ → ℚ → ℚ)
    (radius : ℚ) (locs : List LocationPoint) (p0 : LocationPoint)
    (i j : Nat) (hij : i ≤ j) (hj : j < (sortByTime locs).length) :
    inSameClusterB
        ((clusterLocations dist radius locs).map LocationCluster.points)
        i j = true ↔
      ∀ k, i < k → k ≤ j →
        dist ((sortByTime locs).getD (k-1) p0).latitude
            ((sortByTime locs).getD (k-1) p0).longitude
            ((sortByTime locs).getD k p0).latitude
            ((sortByTime locs).getD k p0).longitude ≤ radius ∧
        ((((sortByTime locs).getD k p0).timestamp -
          ((sortByTime locs).getD (k-1) p0).timestamp : ℤ) : ℚ) / 1000 / 60
          ≤ 30 := by
  have hlen : 0 < (sortByTime locs).length := by omega
  have hlocs : locs ≠ [] := by
    intro h
    rw [h] at hlen
    simp [sortByTime] at hlen
  have hemp : locs.isEmpty = false := by
    cases hl : locs with
    | nil => exact absurd hl hlocs
    | cons a t => rfl
  have hmap : (clusterLocations dist radius locs).map LocationCluster.points =
      clusterRuns (linkB dist radius) (sortByTime locs) := by
    unfold clusterLocations
    rw [hemp]
    simp only [Bool.false_eq_true, if_false]
    rw [List.map_map]
    have hcomp : (LocationCluster.points ∘ createCluster) = id := by
      funext pts
      exact createCluster_points pts
    rw [hcomp, List.map_id]
  obtain ⟨p, ps, hs⟩ : ∃ p ps, sortByTime locs = p :: ps := by
    cases hsl : sortByTime locs with
    | nil => rw [hsl] at hlen; simp at hlen
    | cons a t => exact ⟨a, t, rfl⟩
  have hruns : clusterRuns (linkB dist radius) (sortByTime locs) =
      clusterGo (linkB dist radius) [p] p ps := by
    rw [hs]
    rfl
  have hne := clusterGo_ne_nil (linkB dist radius) ps [p] p (by simp)
  have hch := clusterGo_chain (linkB dist radius) ps [p] p
    (List.chain'_singleton p) rfl
  have hbd := clusterGo_boundary (linkB dist radius) ps [p] p rfl
  have hflat2 : (clusterGo (linkB dist radius) [p] p ps).flatten =
      sortByTime locs := by
    rw [clusterGo_flatten, hs]
    rfl
  have hseg := segs_same_iff (linkB dist radius) p0
    (clusterGo (linkB dist radius) [p] p ps) i j hij
    (by rw [hflat2]; exact hj) hne hch hbd
  rw [hflat2] at hseg
  rw [hmap, hruns, hseg]
  constructor
  · intro h k h1 h2
    have hres := h k h1 h2
    simpa [linkB, Bool.and_eq_true, decide_eq_true_eq] using hres
  · intro h k h1 h2
    have hres := h k h1 h2
    simpa [linkB, Bool.and_eq_true, decide_eq_true_eq] using hres

/-- Witness for the same-cluster characterisation on two points one minute
apart at one spot. -/
theorem clusterLocations_same_cluster_iff_witness :
    ((0 : Nat) ≤ 1 ∧
      1 < (sortByTime [mkPt 1 0 0 0, mkPt 2 0 0 60000]).length) ∧
    (inSameClusterB
        ((clusterLocations dist0 50 [mkPt 1 0 0 0, mkPt 2 0 0 60000]).map
          LocationCluster.points) 0 1 = true ↔
      ∀ k, 0 < k → k ≤ 1 →
        dist0
            ((sortByTime [mkPt 1 0 0 0, mkPt 2 0 0 60000]).getD (k-1)
              (mkPt 0 0 0 0)).latitude
            ((sortByTime [mkPt 1 0 0 0, mkPt 2 0 0 60000]).getD (k-1)
              (mkPt 0 0 0 0)).longitude
            ((sortByTime [mkPt 1 0 0 0, mkPt 2 0 0 60000]).getD k
              (mkPt 0 0 0 0)).latitude
            ((sortByTime [mkPt 1 0 0 0, mkPt 2 0 0 60000]).getD k
              (mkPt 0 0 0 0)).longitude ≤ 50 ∧
        ((((sortByTime [mkPt 1 0 0 0, mkPt 2 0 0 60000]).getD k
            (mkPt 0 0 0 0)).timestamp -
          ((sortByTime [mkPt 1 0 0 0, mkPt 2 0 0 60000]).getD (k-1)
            (mkPt 0 0 0 0)).timestamp : ℤ) : ℚ) / 1000 / 60 ≤ 30) :=
  ⟨⟨by decide, by decide⟩,
   clusterLocations_same_cluster_iff dist0 50
     [mkPt 1 0 0 0, mkPt 2 0 0 60000] (mkPt 0 0 0 0) 0 1
     (by decide) (by decide)⟩
